import Mathlib

/-!
Verification of the discrete-event taxi simulator
(`src/Part-05-Control-Flow/16-Coroutines/taxi_sim.py`).

The Python program is shallowly embedded as follows:

* `Event` mirrors the namedtuple `Event(time, proc, action)`; actions are the
  free-form strings of the source.  Python compares the namedtuple as the
  lexicographic triple; `Event.le` is that order.
* The generator `taxi_process` is embedded as an explicit state machine
  `TaxiGen`, whose `susp` field records the suspension point of the generator
  body (one constructor per `yield` in the source).  `taxi_next` models the
  priming `next(proc)` call on a freshly created generator; `taxi_send g t`
  models `proc.send(t)`, returning `none` where Python raises `StopIteration`.
* `compute_duration` is parameterised by `sample : Nat → Nat`, which stands
  for the draw `int(random.expovariate(1/interval))` as a function of the
  `interval` argument; the global random state is threaded through the
  scheduler loop as an abstract state `σ` of the duration function.
* `Simulator.run` mirrors `Simulator.run`: it primes every process in
  ascending key order, then repeatedly pops the minimum event, dispatches it,
  asks the duration function for the delay, resumes the owning process and
  either re-queues the produced event or deletes the process from the
  registry.  The Python `while` loop is embedded with a fuel parameter chosen
  large enough for every run that terminates in the source.
-/

/-- Constant `DEFAULT_NUM_TAXIS = 3` of the source. -/
def DEFAULT_NUM_TAXIS : Nat := 3

/-- Constant `DEFAULT_END_TIME = 180` of the source. -/
def DEFAULT_END_TIME : Nat := 180

/-- Constant `SEARCH_DURATION = 5` of the source. -/
def SEARCH_DURATION : Nat := 5

/-- Constant `TRIP_DURATION = 20` of the source. -/
def TRIP_DURATION : Nat := 20

/-- Constant `DEPARTURE_INTERVAL = 5` of the source. -/
def DEPARTURE_INTERVAL : Nat := 5

/-- `Event = collections.namedtuple('Event', 'time proc action')`.
Times and process identifiers are the non-negative integers produced by the
program; actions are the literal Python strings. -/
structure Event where
  time : Nat
  proc : Nat
  action : String
  deriving DecidableEq, Repr

/-- Python compares the namedtuple `Event` as the lexicographic triple
`(time, proc, action)`; this is the corresponding (non-strict) order, used by
`queue.PriorityQueue` to select the minimum entry. -/
def Event.le (a b : Event) : Prop :=
  a.time < b.time ∨
    (a.time = b.time ∧
      (a.proc < b.proc ∨ (a.proc = b.proc ∧ a.action ≤ b.action)))

instance (a b : Event) : Decidable (Event.le a b) :=
  inferInstanceAs (Decidable (a.time < b.time ∨
    (a.time = b.time ∧
      (a.proc < b.proc ∨ (a.proc = b.proc ∧ a.action ≤ b.action)))))

/-- Suspension points of the generator body of `taxi_process`:
`created` is a generator object on which `next` has not yet been called;
`atStart` is suspended at the `yield` of the `'START SHIFT'` event (line 26);
`atPick i` / `atDrop i` are suspended at the two `yield`s of loop iteration
`i` (lines 28–29); `atEnd` is suspended at the final `'END SHIFT'` yield
(line 30). -/
inductive TaxiSusp where
  | created
  | atStart
  | atPick (i : Nat)
  | atDrop (i : Nat)
  | atEnd
  deriving DecidableEq, Repr

/-- A `taxi_process(ident, num_trips, start_time)` generator object: its three
arguments plus the current suspension point. -/
structure TaxiGen where
  ident : Nat
  numTrips : Nat
  startTime : Nat
  susp : TaxiSusp
  deriving DecidableEq, Repr

/-- `taxi_process(ident, num_trips, start_time)`: creating the generator
object runs none of the body. -/
def taxi_process (ident num_trips : Nat) (start_time : Nat := 0) : TaxiGen :=
  ⟨ident, num_trips, start_time, .created⟩

/-- `next(proc)` on a freshly created `taxi_process` generator: runs the body
to the first `yield`, producing `Event(start_time, ident, 'START SHIFT')`.
This is the only form of `next(...)` the program performs (priming in
`Simulator.run`, line 46); on an already started generator it returns `none`
here, a case with no counterpart in the program. -/
def taxi_next (g : TaxiGen) : Option (Event × TaxiGen) :=
  match g.susp with
  | .created => some (⟨g.startTime, g.ident, "START SHIFT"⟩, { g with susp := .atStart })
  | _ => none

/-- `proc.send(t)`: resumes the generator at its suspension point with value
`t` (bound to `time` in the body) and runs it to the next `yield`.  `none`
models `StopIteration`: resuming at the final yield falls off the end of the
body, and any later `send` raises `StopIteration` again.  (Sending to a
just-created generator is a `TypeError` in Python and never occurs in the
program; it is mapped to `none` as well.) -/
def taxi_send (g : TaxiGen) (t : Nat) : Option (Event × TaxiGen) :=
  match g.susp with
  | .created => none
  | .atStart =>
      if 0 < g.numTrips then
        some (⟨t, g.ident, "pick up passenger"⟩, { g with susp := .atPick 0 })
      else
        some (⟨t, g.ident, "END SHIFT"⟩, { g with susp := .atEnd })
  | .atPick i => some (⟨t, g.ident, "drop off passenger"⟩, { g with susp := .atDrop i })
  | .atDrop i =>
      if i + 1 < g.numTrips then
        some (⟨t, g.ident, "pick up passenger"⟩, { g with susp := .atPick (i + 1) })
      else
        some (⟨t, g.ident, "END SHIFT"⟩, { g with susp := .atEnd })
  | .atEnd => none

/-- `compute_duration(previous_action)`.  The draw
`int(random.expovariate(1/interval))` is abstracted as `sample interval`,
where `sample` stands for the state of the global random generator at this
call.  The `ValueError` of the unknown-action branch is an `Except.error`
carrying the message. -/
def compute_duration (sample : Nat → Nat) (previous_action : String) : Except String Nat :=
  if previous_action = "START SHIFT" ∨ previous_action = "drop off passenger" then
    .ok (sample SEARCH_DURATION + 1)
  else if previous_action = "pick up passenger" then
    .ok (sample TRIP_DURATION + 1)
  else if previous_action = "END SHIFT" then
    .ok (sample 1 + 1)
  else
    .error ("Unknown previous action: " ++ previous_action)

/-- `self.events.get()` on the `PriorityQueue`: removes and returns a minimum
entry under the `Event` triple order (`none` when the queue is empty).  The
queue is modelled as the list of its entries. -/
def events_get : List Event → Option (Event × List Event)
  | [] => none
  | e :: es =>
    match events_get es with
    | none => some (e, [])
    | some (m, rest) => if Event.le e m then some (e, es) else some (m, e :: rest)

/-- `self.procs[proc_id]` on the registry dict, modelled as an association
list with distinct keys. -/
def lookupProc : List (Nat × TaxiGen) → Nat → Option TaxiGen
  | [], _ => none
  | (k, g) :: rest, id => if k = id then some g else lookupProc rest id

/-- `del self.procs[proc_id]`. -/
def eraseKey : List (Nat × TaxiGen) → Nat → List (Nat × TaxiGen)
  | [], _ => []
  | (k, g) :: rest, id => if k = id then rest else (k, g) :: eraseKey rest id

/-- The in-place mutation of the generator object stored at key `id`
(`active_proc.send(...)` advances the object the registry points to). -/
def setKey : List (Nat × TaxiGen) → Nat → TaxiGen → List (Nat × TaxiGen)
  | [], _, _ => []
  | (k, g) :: rest, id, g' =>
    if k = id then (k, g') :: rest else (k, g) :: setKey rest id g'

/-- The mutable state of a `Simulator`: the event queue and the registry of
live processes (`self.events`, `self.procs`). -/
structure SimState where
  events : List Event
  procs : List (Nat × TaxiGen)
  deriving Repr

/-- How the main loop of `Simulator.run` ended. -/
inductive Outcome where
  /-- `print('END OF EVENTS')` followed by `break`. -/
  | endOfEvents
  /-- The `while`-`else` report, with `self.events.qsize()`. -/
  | horizonReached (remaining : Nat)
  /-- `KeyError` from `self.procs[proc_id]` (line 59). -/
  | keyError (id : Nat)
  /-- `ValueError` raised inside `compute_duration` (line 88), uncaught. -/
  | valueError (msg : String)
  /-- Artefact of the fuel embedding; unreachable with the fuel chosen by
  `Simulator.run`. -/
  | outOfFuel
  deriving DecidableEq, Repr

/-- Result of a run: the events dispatched (printed, line 58) in order, and
how the loop ended. -/
structure RunResult where
  dispatched : List Event
  outcome : Outcome
  deriving DecidableEq, Repr

/-- The main simulation loop of `Simulator.run` (lines 49–69).  `dur` is the
duration function with its random state `σ` threaded explicitly;
`simTime` is `sim_time`, `acc` the events dispatched so far. -/
def runLoop {σ : Type} (dur : σ → String → Except String (Nat × σ)) (endTime : Nat) :
    Nat → σ → Nat → SimState → List Event → RunResult
  | 0, _, simTime, st, acc =>
    if simTime < endTime then
      match events_get st.events with
      | none => ⟨acc, .endOfEvents⟩
      | some _ => ⟨acc, .outOfFuel⟩
    else ⟨acc, .horizonReached st.events.length⟩
  | fuel' + 1, s, simTime, st, acc =>
    if simTime < endTime then
      match events_get st.events with
      | none => ⟨acc, .endOfEvents⟩
      | some (e, rest) =>
        match lookupProc st.procs e.proc with
        | none => ⟨acc ++ [e], .keyError e.proc⟩
        | some g =>
          match dur s e.action with
          | .error msg => ⟨acc ++ [e], .valueError msg⟩
          | .ok (d, s') =>
            match taxi_send g (e.time + d) with
            | none =>
                runLoop dur endTime fuel' s' e.time
                  ⟨rest, eraseKey st.procs e.proc⟩ (acc ++ [e])
            | some (e', g') =>
                runLoop dur endTime fuel' s' e.time
                  ⟨e' :: rest, setKey st.procs e.proc g'⟩ (acc ++ [e])
    else ⟨acc, .horizonReached st.events.length⟩

/-- Insert a registry entry into a key-sorted list (helper for
`sorted(self.procs.items())`). -/
def insertByKey (x : Nat × TaxiGen) : List (Nat × TaxiGen) → List (Nat × TaxiGen)
  | [] => [x]
  | y :: ys => if x.1 ≤ y.1 then x :: y :: ys else y :: insertByKey x ys

/-- `sorted(self.procs.items())`: the registry items in ascending key order
(keys are distinct, so the tuple order is the key order). -/
def sortByKey : List (Nat × TaxiGen) → List (Nat × TaxiGen)
  | [] => []
  | x :: xs => insertByKey x (sortByKey xs)

/-- The priming pass of `Simulator.run` (lines 45–47): `next(proc)` on each
process in order, collecting the first events and the advanced generators. -/
def prime : List (Nat × TaxiGen) → List Event × List (Nat × TaxiGen)
  | [] => ([], [])
  | (id, g) :: rest =>
    let p := prime rest
    match taxi_next g with
    | some (e, g') => (e :: p.1, (id, g') :: p.2)
    | none => (p.1, (id, g) :: p.2)

/-- Remaining number of events a generator will ever yield (used only to
size the fuel of the loop embedding). -/
def TaxiGen.remaining (g : TaxiGen) : Nat :=
  match g.susp with
  | .created => 2 * g.numTrips + 2
  | .atStart => 2 * g.numTrips + 1
  | .atPick i => 2 * (g.numTrips - i)
  | .atDrop i => 2 * (g.numTrips - i) - 1
  | .atEnd => 0

/-- Fuel bound for `runLoop`: every loop iteration removes one queue entry
and adds at most one, strictly decreasing `events + Σ remaining`. -/
def SimState.measure (st : SimState) : Nat :=
  st.events.length + (st.procs.map (fun p => p.2.remaining)).sum

/-- `Simulator(procs_map).run(end_time)` (lines 37–69): prime every process
in ascending key order, then run the main loop from `sim_time = 0`. -/
def Simulator.run {σ : Type} (dur : σ → String → Except String (Nat × σ)) (s : σ)
    (procs_map : List (Nat × TaxiGen)) (end_time : Nat) : RunResult :=
  runLoop dur end_time
    (SimState.measure ⟨(prime (sortByKey procs_map)).1, (prime (sortByKey procs_map)).2⟩ + 1)
    s 0 ⟨(prime (sortByKey procs_map)).1, (prime (sortByKey procs_map)).2⟩ []

/-- The stub duration function of the concrete scenario of the specification:
fixed delays START ↦ 5, DROP_OFF ↦ 5, PICK_UP ↦ 20, END ↦ 1. -/
def stub_duration (a : String) : Except String Nat :=
  if a = "START SHIFT" then .ok 5
  else if a = "drop off passenger" then .ok 5
  else if a = "pick up passenger" then .ok 20
  else if a = "END SHIFT" then .ok 1
  else .error ("Unknown previous action: " ++ a)

/-- The stub duration function in the stateful interface of `runLoop`
(its random state is trivial). -/
def stub_dur : Unit → String → Except String (Nat × Unit) :=
  fun u a => (stub_duration a).map (fun d => (d, u))

/-- **C1.** One actor with `trip_count = 2` and `start_offset = 0`, the stub
duration function (START:5, DROP_OFF:5, PICK_UP:20, END:1) and horizon 1000:
`Simulator.run` dispatches exactly the six events
(0, START), (5, PICK_UP), (25, DROP_OFF), (30, PICK_UP), (50, DROP_OFF),
(55, END) in that order, with strictly increasing clock values, and ends
with the "no events remaining" report (`END OF EVENTS`). -/
theorem run_concrete_scenario :
    Simulator.run stub_dur () [(0, taxi_process 0 2 0)] 1000 =
      ⟨[⟨0, 0, "START SHIFT"⟩, ⟨5, 0, "pick up passenger"⟩,
        ⟨25, 0, "drop off passenger"⟩, ⟨30, 0, "pick up passenger"⟩,
        ⟨50, 0, "drop off passenger"⟩, ⟨55, 0, "END SHIFT"⟩],
       .endOfEvents⟩ ∧
    List.Chain' (fun a b => a.time < b.time)
      (Simulator.run stub_dur () [(0, taxi_process 0 2 0)] 1000).dispatched := by
  have h : Simulator.run stub_dur () [(0, taxi_process 0 2 0)] 1000 =
      ⟨[⟨0, 0, "START SHIFT"⟩, ⟨5, 0, "pick up passenger"⟩,
        ⟨25, 0, "drop off passenger"⟩, ⟨30, 0, "pick up passenger"⟩,
        ⟨50, 0, "drop off passenger"⟩, ⟨55, 0, "END SHIFT"⟩],
       .endOfEvents⟩ := rfl
  refine ⟨h, ?_⟩
  rw [h]
  simp only [List.chain'_cons, List.chain'_singleton]
  refine ⟨?_, ?_, ?_, ?_, ?_, trivial⟩ <;> decide

/-- **C7, counterexample.** The delay `compute_duration` returns for the END
action is not the fixed value 1: the source computes
`int(random.expovariate(1/1)) + 1`, so with a random draw whose floor is 1
(which the exponential distribution produces) the call returns 2, while a
draw of floor 0 returns 1 — two calls on different random states disagree. -/
theorem compute_duration_end_not_fixed :
    compute_duration (fun _ => 1) "END SHIFT" = Except.ok 2 ∧
    compute_duration (fun _ => 1) "END SHIFT" ≠ Except.ok 1 ∧
    compute_duration (fun _ => 0) "END SHIFT" = Except.ok 1 := by
  refine ⟨rfl, ?_, rfl⟩
  intro h
  simp [compute_duration] at h

/-- **C7, amended.** `compute_duration` treats END exactly like the other
actions, only with interval (mean) 1: every branch returns
`int(random.expovariate(1/interval)) + 1`, i.e. `sample interval + 1`, a
stochastic positive delay, not a fixed value.  START and DROP_OFF use
interval `SEARCH_DURATION = 5`, PICK_UP uses `TRIP_DURATION = 20`, END uses
interval 1. -/
theorem compute_duration_policy (sample : Nat → Nat) :
    compute_duration sample "START SHIFT" = Except.ok (sample SEARCH_DURATION + 1) ∧
    compute_duration sample "drop off passenger" = Except.ok (sample SEARCH_DURATION + 1) ∧
    compute_duration sample "pick up passenger" = Except.ok (sample TRIP_DURATION + 1) ∧
    compute_duration sample "END SHIFT" = Except.ok (sample 1 + 1) ∧
    SEARCH_DURATION = 5 ∧ TRIP_DURATION = 20 := by
  exact ⟨rfl, rfl, rfl, rfl, rfl, rfl⟩

/-- **C8, counterexample.** `Simulator.run` with horizon 0 on a one-taxi
configuration does not abort with an error: it completes normally, dispatches
nothing and issues the `while`-`else` report (`horizon reached`) with the one
primed event still queued. -/
theorem run_zero_horizon_completes :
    Simulator.run stub_dur () [(0, taxi_process 0 2 0)] 0 =
      ⟨[], .horizonReached 1⟩ := rfl

/-- **C8, amended.** A non-positive horizon (0 over the naturals) is not
checked or rejected anywhere: `Simulator.run` primes every actor, the
`while sim_time < end_time` guard fails at once, no event is dispatched, and
the run ends normally with the "horizon reached" report counting all primed
events still in the queue.  No error is raised. -/
theorem run_zero_horizon {σ : Type} (dur : σ → String → Except String (Nat × σ))
    (s : σ) (procs_map : List (Nat × TaxiGen)) :
    Simulator.run dur s procs_map 0 =
      ⟨[], .horizonReached (prime (sortByKey procs_map)).1.length⟩ := by
  simp [Simulator.run, runLoop]

/-- The actions yielded by the `for i in range(num_trips)` loop of
`taxi_process`: each iteration yields a pick up followed by a drop off. -/
def tripActions : Nat → List String
  | 0 => []
  | n + 1 => "pick up passenger" :: "drop off passenger" :: tripActions n

/-- The actions a suspended `taxi_process` generator will still yield. -/
def remActions (g : TaxiGen) : List String :=
  match g.susp with
  | .created => []
  | .atStart => tripActions g.numTrips ++ ["END SHIFT"]
  | .atPick i => "drop off passenger" :: (tripActions (g.numTrips - 1 - i) ++ ["END SHIFT"])
  | .atDrop i => tripActions (g.numTrips - 1 - i) ++ ["END SHIFT"]
  | .atEnd => []

/-- Feed `fuel` resume times from the stream `ts` into a suspended generator,
collecting the yielded events until `StopIteration`. -/
def sendAll (ts : Nat → Nat) : Nat → TaxiGen → List Event
  | 0, _ => []
  | fuel + 1, g =>
    match taxi_send g (ts 0) with
    | none => []
    | some (e, g') => e :: sendAll (fun n => ts (n + 1)) fuel g'

/-- Every event a `taxi_process(ident, num_trips, start_time)` generator ever
produces: the priming `next` plus `fuel` further `send`s with resume times
drawn from the stream `ts`. -/
def taxi_lifetime (ident num_trips start_time : Nat) (ts : Nat → Nat) (fuel : Nat) :
    List Event :=
  match taxi_next (taxi_process ident num_trips start_time) with
  | some (e, g) => e :: sendAll ts fuel g
  | none => []

lemma tripActions_length (n : Nat) : (tripActions n).length = 2 * n := by
  induction n with
  | zero => rfl
  | succ m ih => simp [tripActions, ih]; omega

lemma tripActions_pos (k : Nat) (hk : 0 < k) :
    tripActions k = "pick up passenger" :: "drop off passenger" :: tripActions (k - 1) := by
  cases k with
  | zero => omega
  | succ m => simp [tripActions]

/-- A generator with no actions left raises `StopIteration` on `send`. -/
lemma taxi_send_exhausted (g : TaxiGen) (t : Nat) (h : remActions g = []) :
    taxi_send g t = none := by
  obtain ⟨id, n, s, susp⟩ := g
  cases susp <;> simp_all [remActions, taxi_send]

/-- One `send` yields exactly the head of the remaining actions, stamped with
the resume time, and leaves the tail. -/
lemma taxi_send_step (g : TaxiGen) (a : String) (as : List String) (t : Nat)
    (h : remActions g = a :: as) :
    ∃ g', taxi_send g t = some (⟨t, g.ident, a⟩, g') ∧
      remActions g' = as ∧ g'.ident = g.ident ∧ g'.numTrips = g.numTrips := by
  obtain ⟨id, n, s, susp⟩ := g
  cases susp with
  | created => simp [remActions] at h
  | atEnd => simp [remActions] at h
  | atStart =>
      cases n with
      | zero =>
          simp [remActions, tripActions] at h
          refine ⟨⟨id, 0, s, .atEnd⟩, by simp [taxi_send, h.1], ?_, rfl, rfl⟩
          simp [remActions, h.2]
      | succ m =>
          simp [remActions, tripActions] at h
          refine ⟨⟨id, m + 1, s, .atPick 0⟩, by simp [taxi_send, h.1], ?_, rfl, rfl⟩
          simp [remActions, ← h.2]
  | atPick i =>
      simp [remActions] at h
      refine ⟨⟨id, n, s, .atDrop i⟩, by simp [taxi_send, h.1], ?_, rfl, rfl⟩
      simp [remActions, ← h.2]
  | atDrop i =>
      simp only [remActions] at h
      by_cases hi : i + 1 < n
      · have hpos : 0 < n - 1 - i := by omega
        rw [tripActions_pos _ hpos] at h
        simp at h
        refine ⟨⟨id, n, s, .atPick (i + 1)⟩, by simp [taxi_send, hi, h.1], ?_, rfl, rfl⟩
        have harith : n - 1 - i - 1 = n - 1 - (i + 1) := by omega
        rw [harith] at h
        simp [remActions, ← h.2]
      · have hz : n - 1 - i = 0 := by omega
        rw [hz] at h
        simp [tripActions] at h
        refine ⟨⟨id, n, s, .atEnd⟩, by simp [taxi_send, hi, h.1], ?_, rfl, rfl⟩
        simp [remActions, h.2]

/-- With enough fuel, the events a generator still yields are exactly its
remaining actions. -/
lemma sendAll_spec (fuel : Nat) :
    ∀ (g : TaxiGen) (ts : Nat → Nat), (remActions g).length ≤ fuel →
      (sendAll ts fuel g).map Event.action = remActions g := by
  induction fuel with
  | zero =>
      intro g ts h
      have hnil : remActions g = [] := List.eq_nil_of_length_eq_zero (Nat.le_zero.mp h)
      simp [sendAll, hnil]
  | succ f ih =>
      intro g ts h
      cases hr : remActions g with
      | nil => simp [sendAll, taxi_send_exhausted g (ts 0) hr]
      | cons a as =>
          obtain ⟨g', hsend, hrem, _, _⟩ := taxi_send_step g a as (ts 0) hr
          have hlen : (remActions g').length ≤ f := by
            rw [hrem]
            have := congrArg List.length hr
            simp at this
            omega
          simp [sendAll, hsend, ih g' _ hlen, hrem]

/-- Once the fuel covers the remaining actions, more fuel changes nothing:
no further event is ever produced. -/
lemma sendAll_stable (fuel : Nat) :
    ∀ (fuel' : Nat) (g : TaxiGen) (ts : Nat → Nat),
      (remActions g).length ≤ fuel → (remActions g).length ≤ fuel' →
      sendAll ts fuel g = sendAll ts fuel' g := by
  induction fuel with
  | zero =>
      intro fuel' g ts h _
      have hnil : remActions g = [] := List.eq_nil_of_length_eq_zero (Nat.le_zero.mp h)
      cases fuel' <;> simp [sendAll, taxi_send_exhausted g _ hnil]
  | succ f ih =>
      intro fuel' g ts h h'
      cases hr : remActions g with
      | nil => cases fuel' <;> simp [sendAll, taxi_send_exhausted g _ hr]
      | cons a as =>
          cases fuel' with
          | zero => rw [hr] at h'; simp at h'
          | succ f' =>
              obtain ⟨g', hsend, hrem, _, _⟩ := taxi_send_step g a as (ts 0) hr
              have hlen : as.length ≤ f := by
                have := congrArg List.length hr
                simp at this
                omega
              have hlen' : as.length ≤ f' := by
                have := congrArg List.length hr
                simp at this
                omega
              simp only [sendAll, hsend]
              rw [ih f' g' _ (by rw [hrem]; exact hlen) (by rw [hrem]; exact hlen')]

/-- **C2.** An actor created with `trip_count = n` produces exactly
`2n + 2` events over its whole lifetime: a START SHIFT event first, then `n`
repetitions of pick up followed by drop off, then one END SHIFT event — and
nothing after that (any longer resume-time stream produces the identical
event list). -/
theorem taxi_process_event_count (ident n s : Nat) (ts : Nat → Nat) (fuel fuel' : Nat)
    (hf : 2 * n + 1 ≤ fuel) (hf' : 2 * n + 1 ≤ fuel') :
    (taxi_lifetime ident n s ts fuel).map Event.action
        = "START SHIFT" :: (tripActions n ++ ["END SHIFT"]) ∧
    (taxi_lifetime ident n s ts fuel).length = 2 * n + 2 ∧
    taxi_lifetime ident n s ts fuel = taxi_lifetime ident n s ts fuel' := by
  have hstart : taxi_next (taxi_process ident n s) =
      some (⟨s, ident, "START SHIFT"⟩, ⟨ident, n, s, .atStart⟩) := rfl
  have hrem : remActions ⟨ident, n, s, .atStart⟩ = tripActions n ++ ["END SHIFT"] := rfl
  have hlen : (remActions ⟨ident, n, s, .atStart⟩).length ≤ fuel := by
    rw [hrem]; simp [tripActions_length]; omega
  have hlen' : (remActions ⟨ident, n, s, .atStart⟩).length ≤ fuel' := by
    rw [hrem]; simp [tripActions_length]; omega
  refine ⟨?_, ?_, ?_⟩
  · simp [taxi_lifetime, hstart, sendAll_spec fuel _ ts hlen, hrem]
  · have hmap := sendAll_spec fuel _ ts hlen
    have : (sendAll ts fuel ⟨ident, n, s, .atStart⟩).length
        = (remActions ⟨ident, n, s, .atStart⟩).length := by
      rw [← hmap]; simp
    simp [taxi_lifetime, hstart]
    rw [this, hrem]
    simp [tripActions_length]
  · simp [taxi_lifetime, hstart, sendAll_stable fuel fuel' _ ts hlen hlen']

/-- Witness for C2 at `ident = 1`, `n = 2`, `start_time = 3`, the identity
resume-time stream, and fuels 5 and 6. -/
theorem taxi_process_event_count_witness :
    (taxi_lifetime 1 2 3 (fun k => k) 5).map Event.action
        = "START SHIFT" :: (tripActions 2 ++ ["END SHIFT"]) ∧
    (taxi_lifetime 1 2 3 (fun k => k) 5).length = 2 * 2 + 2 ∧
    taxi_lifetime 1 2 3 (fun k => k) 5 = taxi_lifetime 1 2 3 (fun k => k) 6 :=
  taxi_process_event_count 1 2 3 (fun k => k) 5 6 (by decide) (by decide)

lemma Event.le_rfl (a : Event) : Event.le a a := by
  unfold Event.le
  exact Or.inr ⟨rfl, Or.inr ⟨rfl, le_refl _⟩⟩

lemma Event.le_total' (a b : Event) : Event.le a b ∨ Event.le b a := by
  unfold Event.le
  rcases Nat.lt_trichotomy a.time b.time with ht | ht | ht
  · exact Or.inl (Or.inl ht)
  · rcases Nat.lt_trichotomy a.proc b.proc with hp | hp | hp
    · exact Or.inl (Or.inr ⟨ht, Or.inl hp⟩)
    · rcases le_total a.action b.action with ha | ha
      · exact Or.inl (Or.inr ⟨ht, Or.inr ⟨hp, ha⟩⟩)
      · exact Or.inr (Or.inr ⟨ht.symm, Or.inr ⟨hp.symm, ha⟩⟩)
    · exact Or.inr (Or.inr ⟨ht.symm, Or.inl hp⟩)
  · exact Or.inr (Or.inl ht)

lemma Event.le_trans' (a b c : Event) (hab : Event.le a b) (hbc : Event.le b c) :
    Event.le a c := by
  unfold Event.le at *
  rcases hab with h1 | ⟨ht1, h1⟩ <;> rcases hbc with h2 | ⟨ht2, h2⟩
  · exact Or.inl (lt_trans h1 h2)
  · exact Or.inl (by omega)
  · exact Or.inl (by omega)
  · right
    refine ⟨ht1.trans ht2, ?_⟩
    rcases h1 with hp1 | ⟨hpe1, ha1⟩ <;> rcases h2 with hp2 | ⟨hpe2, ha2⟩
    · exact Or.inl (lt_trans hp1 hp2)
    · exact Or.inl (by omega)
    · exact Or.inl (by omega)
    · exact Or.inr ⟨hpe1.trans hpe2, le_trans ha1 ha2⟩

lemma Event.le_antisymm' (a b : Event) (hab : Event.le a b) (hba : Event.le b a) :
    a = b := by
  obtain ⟨ta, pa, aa⟩ := a
  obtain ⟨tb, pb, ab⟩ := b
  unfold Event.le at *
  simp only at hab hba
  rcases hab with h1 | ⟨ht1, h1⟩ <;> rcases hba with h2 | ⟨ht2, h2⟩ <;>
    try (exfalso; omega)
  rcases h1 with hp1 | ⟨hpe1, ha1⟩ <;> rcases h2 with hp2 | ⟨hpe2, ha2⟩ <;>
    try (exfalso; omega)
  have : aa = ab := le_antisymm ha1 ha2
  simp [ht1, hpe1, this]

lemma Event.le_time (a b : Event) (h : Event.le a b) : a.time ≤ b.time := by
  unfold Event.le at h
  rcases h with h | ⟨ht, _⟩
  · exact le_of_lt h
  · exact le_of_eq ht

lemma events_get_eq_none (l : List Event) : events_get l = none ↔ l = [] := by
  cases l with
  | nil => simp [events_get]
  | cons e es =>
      simp only [events_get]
      cases h : events_get es with
      | none => simp
      | some p => obtain ⟨m, rest⟩ := p; by_cases hle : Event.le e m <;> simp [hle]

lemma events_get_perm (l : List Event) (e : Event) (rest : List Event)
    (h : events_get l = some (e, rest)) : l.Perm (e :: rest) := by
  induction l generalizing e rest with
  | nil => simp [events_get] at h
  | cons x xs ih =>
      simp only [events_get] at h
      cases hxs : events_get xs with
      | none =>
          rw [hxs] at h
          have : xs = [] := (events_get_eq_none xs).mp hxs
          simp only [Option.some.injEq, Prod.mk.injEq] at h
          subst this
          rw [← h.1, ← h.2]
      | some p =>
          obtain ⟨m, mrest⟩ := p
          rw [hxs] at h
          have hperm := ih m mrest hxs
          by_cases hle : Event.le x m
          · simp only [hle, if_true, Option.some.injEq, Prod.mk.injEq] at h
            rw [← h.1, ← h.2]
          · simp only [hle, if_false, Option.some.injEq, Prod.mk.injEq] at h
            rw [← h.1, ← h.2]
            exact (hperm.cons x).trans (List.Perm.swap m x mrest)

lemma events_get_min (l : List Event) (e : Event) (rest : List Event)
    (h : events_get l = some (e, rest)) : ∀ x ∈ l, Event.le e x := by
  induction l generalizing e rest with
  | nil => simp [events_get] at h
  | cons y ys ih =>
      simp only [events_get] at h
      cases hys : events_get ys with
      | none =>
          rw [hys] at h
          have : ys = [] := (events_get_eq_none ys).mp hys
          simp only [Option.some.injEq, Prod.mk.injEq] at h
          subst this
          intro x hx
          simp at hx
          rw [hx, ← h.1]
          exact Event.le_rfl _
      | some p =>
          obtain ⟨m, mrest⟩ := p
          rw [hys] at h
          have hmin := ih m mrest hys
          by_cases hle : Event.le y m
          · simp only [hle, if_true, Option.some.injEq, Prod.mk.injEq] at h
            intro x hx
            rcases List.mem_cons.mp hx with hx | hx
            · rw [hx, ← h.1]; exact Event.le_rfl _
            · exact h.1 ▸ Event.le_trans' y m x hle (hmin x hx)
          · simp only [hle, if_false, Option.some.injEq, Prod.mk.injEq] at h
            have hmy : Event.le m y := (Event.le_total' y m).resolve_left hle
            intro x hx
            rcases List.mem_cons.mp hx with hx | hx
            · rw [hx, ← h.1]; exact hmy
            · exact h.1 ▸ hmin x hx

/-- **C4.** Events are totally ordered by the lexicographic triple
`(time, proc, action)` — `Event.le` is reflexive-total, antisymmetric and
transitive — and the queue pop used by the dispatch loop always returns a
minimum under that order; in particular, among queued events with equal
times the one with the smaller actor id is popped first, and with equal
times and ids the one with the `≤`-smaller action string. -/
theorem event_order_dispatch :
    (∀ a b : Event, Event.le a b ∨ Event.le b a) ∧
    (∀ a b : Event, Event.le a b → Event.le b a → a = b) ∧
    (∀ a b c : Event, Event.le a b → Event.le b c → Event.le a c) ∧
    (∀ (l : List Event) (e : Event) (rest : List Event),
      events_get l = some (e, rest) → ∀ x ∈ l, Event.le e x) ∧
    (∀ (l : List Event) (e : Event) (rest : List Event),
      events_get l = some (e, rest) → ∀ x ∈ l, e.time = x.time →
        e.proc < x.proc ∨ (e.proc = x.proc ∧ e.action ≤ x.action)) := by
  refine ⟨Event.le_total', Event.le_antisymm', Event.le_trans', events_get_min, ?_⟩
  intro l e rest h x hx ht
  have hle := events_get_min l e rest h x hx
  unfold Event.le at hle
  rcases hle with hlt | ⟨_, hrest⟩
  · omega
  · exact hrest

/-- Witness for C4: popping the two-element queue with a time tie returns the
event with the smaller actor id, which is `le`-below the other entry. -/
theorem event_order_dispatch_witness :
    Event.le ⟨5, 0, "END SHIFT"⟩ ⟨5, 1, "START SHIFT"⟩ :=
  event_order_dispatch.2.2.2.1
    [⟨5, 1, "START SHIFT"⟩, ⟨5, 0, "END SHIFT"⟩] ⟨5, 0, "END SHIFT"⟩
    [⟨5, 1, "START SHIFT"⟩] (by decide) ⟨5, 1, "START SHIFT"⟩ (by decide)

/-- `send` stamps the yielded event with the resume time and the generator's
own identity, and never changes the identity. -/
lemma taxi_send_shape (g : TaxiGen) (t : Nat) (e' : Event) (g' : TaxiGen)
    (h : taxi_send g t = some (e', g')) :
    e'.time = t ∧ e'.proc = g.ident ∧ g'.ident = g.ident := by
  obtain ⟨id, n, s, susp⟩ := g
  cases susp with
  | created => simp [taxi_send] at h
  | atEnd => simp [taxi_send] at h
  | atStart =>
      by_cases hn : 0 < n <;> simp [taxi_send, hn] at h <;>
        exact ⟨by rw [← h.1], by rw [← h.1], by rw [← h.2]⟩
  | atPick i =>
      simp [taxi_send] at h
      exact ⟨by rw [← h.1], by rw [← h.1], by rw [← h.2]⟩
  | atDrop i =>
      by_cases hi : i + 1 < n <;> simp [taxi_send, hi] at h <;>
        exact ⟨by rw [← h.1], by rw [← h.1], by rw [← h.2]⟩

/-- Invariant induction for the main loop: if the dispatched prefix is
time-sorted, bounded by the clock, and every queued event is due no earlier
than the clock, the whole dispatched sequence is time-sorted. -/
lemma runLoop_dispatched_mono {σ : Type} (dur : σ → String → Except String (Nat × σ))
    (endTime : Nat) :
    ∀ (fuel : Nat) (s : σ) (simTime : Nat) (st : SimState) (acc : List Event),
      List.Chain' (fun a b => a.time ≤ b.time) acc →
      (∀ e ∈ acc, e.time ≤ simTime) →
      (∀ e ∈ st.events, simTime ≤ e.time) →
      List.Chain' (fun a b => a.time ≤ b.time)
        (runLoop dur endTime fuel s simTime st acc).dispatched := by
  intro fuel
  induction fuel with
  | zero =>
      intro s simTime st acc h1 h2 h3
      by_cases hlt : simTime < endTime
      · cases hget : events_get st.events with
        | none => simpa [runLoop, hlt, hget] using h1
        | some p =>
            obtain ⟨e, rest⟩ := p
            simpa [runLoop, hlt, hget] using h1
      · simpa [runLoop, hlt] using h1
  | succ f ih =>
      intro s simTime st acc h1 h2 h3
      by_cases hlt : simTime < endTime
      · cases hget : events_get st.events with
        | none => simpa [runLoop, hlt, hget] using h1
        | some p =>
            obtain ⟨e, rest⟩ := p
            have hperm := events_get_perm st.events e rest hget
            have hmin := events_get_min st.events e rest hget
            have heMem : e ∈ st.events := hperm.symm.subset (List.mem_cons_self e rest)
            have heSim : simTime ≤ e.time := h3 e heMem
            have hchain1 : List.Chain' (fun a b => a.time ≤ b.time) (acc ++ [e]) := by
              apply List.Chain'.append h1 (List.chain'_singleton e)
              intro x hx y hy
              simp at hy
              subst hy
              have hxa : x ∈ acc := List.mem_of_mem_getLast? hx
              exact le_trans (h2 x hxa) heSim
            have hacc1 : ∀ a ∈ acc ++ [e], a.time ≤ e.time := by
              intro a ha
              rcases List.mem_append.mp ha with ha | ha
              · exact le_trans (h2 a ha) heSim
              · simp at ha; rw [ha]
            have hrest : ∀ x ∈ rest, e.time ≤ x.time := by
              intro x hx
              exact Event.le_time e x
                (hmin x (hperm.symm.subset (List.mem_cons_of_mem e hx)))
            cases hlook : lookupProc st.procs e.proc with
            | none => simpa [runLoop, hlt, hget, hlook] using hchain1
            | some g =>
                cases hdur : dur s e.action with
                | error msg => simpa [runLoop, hlt, hget, hlook, hdur] using hchain1
                | ok p2 =>
                    obtain ⟨d, s2⟩ := p2
                    cases hsend : taxi_send g (e.time + d) with
                    | none =>
                        have := ih s2 e.time ⟨rest, eraseKey st.procs e.proc⟩
                          (acc ++ [e]) hchain1 hacc1 hrest
                        simpa [runLoop, hlt, hget, hlook, hdur, hsend] using this
                    | some p3 =>
                        obtain ⟨e2, g2⟩ := p3
                        have he2 := (taxi_send_shape g (e.time + d) e2 g2 hsend).1
                        have hq : ∀ x ∈ e2 :: rest, e.time ≤ x.time := by
                          intro x hx
                          rcases List.mem_cons.mp hx with hx | hx
                          · rw [hx, he2]; omega
                          · exact hrest x hx
                        have := ih s2 e.time ⟨e2 :: rest, setKey st.procs e.proc g2⟩
                          (acc ++ [e]) hchain1 hacc1 hq
                        simpa [runLoop, hlt, hget, hlook, hdur, hsend] using this
      · simpa [runLoop, hlt] using h1

/-- **C3.** For every run of `Simulator.run` — any actor configuration, any
duration function returning positive delays — the sequence of time values of
dispatched events is non-decreasing.  (The proof maintains the queue
invariant of the claim: every queued event is due no earlier than the current
clock, preserved by each loop iteration, `runLoop_dispatched_mono`.) -/
theorem run_dispatch_monotone {σ : Type} (dur : σ → String → Except String (Nat × σ))
    (s : σ) (procs_map : List (Nat × TaxiGen)) (endTime : Nat)
    (_hpos : ∀ (s₁ : σ) (a : String) (d : Nat) (s₂ : σ),
      dur s₁ a = .ok (d, s₂) → 0 < d) :
    List.Chain' (fun a b => a.time ≤ b.time)
      (Simulator.run dur s procs_map endTime).dispatched := by
  unfold Simulator.run
  apply runLoop_dispatched_mono
  · exact List.chain'_nil
  · intro e he; simp at he
  · intro e he; exact Nat.zero_le _

/-- `stub_duration` only ever returns the delays 5, 20 and 1, all positive. -/
lemma stub_duration_pos (a : String) (v : Nat) (h : stub_duration a = .ok v) :
    0 < v := by
  unfold stub_duration at h
  split at h
  · simp at h; omega
  · split at h
    · simp at h; omega
    · split at h
      · simp at h; omega
      · split at h
        · simp at h; omega
        · simp at h

/-- The stub duration function returns only positive delays. -/
lemma stub_dur_pos : ∀ (s₁ : Unit) (a : String) (d : Nat) (s₂ : Unit),
    stub_dur s₁ a = .ok (d, s₂) → 0 < d := by
  intro _ a d _ h
  simp only [stub_dur] at h
  cases hsd : stub_duration a with
  | error m => rw [hsd] at h; simp [Except.map] at h
  | ok v =>
      rw [hsd] at h
      simp [Except.map] at h
      have := stub_duration_pos a v hsd
      omega

/-- Witness for C3: a two-taxi configuration run with the (positive) stub
duration function. -/
theorem run_dispatch_monotone_witness :
    List.Chain' (fun a b => a.time ≤ b.time)
      (Simulator.run stub_dur ()
        [(0, taxi_process 0 2 0), (1, taxi_process 1 1 5)] 1000).dispatched :=
  run_dispatch_monotone stub_dur ()
    [(0, taxi_process 0 2 0), (1, taxi_process 1 1 5)] 1000 stub_dur_pos

/-- If every dispatched event but the last is inside the horizon and the last
one carries the current clock, then inside the loop guard the whole
dispatched prefix is inside the horizon. -/
lemma acc_lt_of_inv (endTime simTime : Nat) (acc : List Event)
    (h1 : ∀ e ∈ acc.dropLast, e.time < endTime)
    (h2 : ∀ e, acc.getLast? = some e → e.time = simTime)
    (hlt : simTime < endTime) : ∀ x ∈ acc, x.time < endTime := by
  rcases List.eq_nil_or_concat acc with rfl | ⟨l', a, hacc⟩
  · intro x hx; simp at hx
  · rw [List.concat_eq_append] at hacc
    subst hacc
    intro x hx
    rcases List.mem_append.mp hx with hx | hx
    · apply h1; rw [List.dropLast_concat]; exact hx
    · simp at hx
      have := h2 a (by rw [List.getLast?_concat])
      subst hx
      omega

/-- Invariant induction for the horizon boundary: every dispatched event
except possibly the final one has time inside the horizon — the loop guard
`sim_time < end_time` is re-checked before each pop, so only the event that
first carries the clock past the horizon can be dispatched late, and the
loop exits right after it. -/
lemma runLoop_overshoot {σ : Type} (dur : σ → String → Except String (Nat × σ))
    (endTime : Nat) :
    ∀ (fuel : Nat) (s : σ) (simTime : Nat) (st : SimState) (acc : List Event),
      (∀ e ∈ acc.dropLast, e.time < endTime) →
      (∀ e, acc.getLast? = some e → e.time = simTime) →
      ∀ x ∈ (runLoop dur endTime fuel s simTime st acc).dispatched.dropLast,
        x.time < endTime := by
  intro fuel
  induction fuel with
  | zero =>
      intro s simTime st acc h1 h2
      by_cases hlt : simTime < endTime
      · cases hget : events_get st.events with
        | none => simpa [runLoop, hlt, hget] using h1
        | some p => obtain ⟨e, rest⟩ := p; simpa [runLoop, hlt, hget] using h1
      · simpa [runLoop, hlt] using h1
  | succ f ih =>
      intro s simTime st acc h1 h2
      by_cases hlt : simTime < endTime
      · cases hget : events_get st.events with
        | none => simpa [runLoop, hlt, hget] using h1
        | some p =>
            obtain ⟨e, rest⟩ := p
            have hacc := acc_lt_of_inv endTime simTime acc h1 h2 hlt
            have h1' : ∀ x ∈ (acc ++ [e]).dropLast, x.time < endTime := by
              rw [List.dropLast_concat]; exact hacc
            have h2' : ∀ x, (acc ++ [e]).getLast? = some x → x.time = e.time := by
              intro x hx
              rw [List.getLast?_concat] at hx
              simp at hx
              rw [← hx]
            cases hlook : lookupProc st.procs e.proc with
            | none => simpa [runLoop, hlt, hget, hlook] using h1'
            | some g =>
                cases hdur : dur s e.action with
                | error msg => simpa [runLoop, hlt, hget, hlook, hdur] using h1'
                | ok p2 =>
                    obtain ⟨d, s2⟩ := p2
                    cases hsend : taxi_send g (e.time + d) with
                    | none =>
                        have := ih s2 e.time ⟨rest, eraseKey st.procs e.proc⟩
                          (acc ++ [e]) h1' h2'
                        simpa [runLoop, hlt, hget, hlook, hdur, hsend] using this
                    | some p3 =>
                        obtain ⟨e2, g2⟩ := p3
                        have := ih s2 e.time ⟨e2 :: rest, setKey st.procs e.proc g2⟩
                          (acc ++ [e]) h1' h2'
                        simpa [runLoop, hlt, hget, hlook, hdur, hsend] using this
      · simpa [runLoop, hlt] using h1

/-- **C10.** In every run of `Simulator.run` with horizon `endTime`, a
dispatched event whose time has reached the horizon is the last event
dispatched: at most one dispatched event has `time ≥ endTime`, and nothing
is dispatched after it. -/
theorem run_single_overshoot {σ : Type} (dur : σ → String → Except String (Nat × σ))
    (s : σ) (procs_map : List (Nat × TaxiGen)) (endTime : Nat) (i : Nat) (e : Event)
    (hi : (Simulator.run dur s procs_map endTime).dispatched.get? i = some e)
    (hover : endTime ≤ e.time) :
    i + 1 = (Simulator.run dur s procs_map endTime).dispatched.length := by
  obtain ⟨hlen, hget⟩ := List.get?_eq_some.mp hi
  by_contra hne
  have hlt : i + 1 < (Simulator.run dur s procs_map endTime).dispatched.length := by
    omega
  have hmem : e ∈ (Simulator.run dur s procs_map endTime).dispatched.dropLast := by
    have hlen' : i < (Simulator.run dur s procs_map endTime).dispatched.dropLast.length := by
      rw [List.length_dropLast]; omega
    have heq := List.getElem_dropLast
      (Simulator.run dur s procs_map endTime).dispatched i hlen'
    rw [← hget]
    have : (Simulator.run dur s procs_map endTime).dispatched.dropLast.get ⟨i, hlen'⟩ =
        (Simulator.run dur s procs_map endTime).dispatched.get ⟨i, hlen⟩ := by
      simp only [List.get_eq_getElem]
      exact heq
    rw [← this]
    exact List.get_mem _ _ _
  have hrun : Simulator.run dur s procs_map endTime =
      runLoop dur endTime
        (SimState.measure ⟨(prime (sortByKey procs_map)).1, (prime (sortByKey procs_map)).2⟩ + 1)
        s 0 ⟨(prime (sortByKey procs_map)).1, (prime (sortByKey procs_map)).2⟩ [] := rfl
  rw [hrun] at hmem
  have hfin := runLoop_overshoot dur endTime
      (SimState.measure ⟨(prime (sortByKey procs_map)).1, (prime (sortByKey procs_map)).2⟩ + 1)
      s 0 ⟨(prime (sortByKey procs_map)).1, (prime (sortByKey procs_map)).2⟩ []
      (by intro x hx; simp at hx) (by intro x hx; simp at hx) e hmem
  omega

/-- Witness for C10: the boundary scenario — one taxi, two trips, stub
durations, horizon 40 — dispatches times 0, 5, 25, 30, 50; the event at
index 4 has time 50 ≥ 40 and is indeed the last of the five. -/
theorem run_single_overshoot_witness :
    4 + 1 = (Simulator.run stub_dur () [(0, taxi_process 0 2 0)] 40).dispatched.length :=
  run_single_overshoot stub_dur () [(0, taxi_process 0 2 0)] 40 4
    ⟨50, 0, "drop off passenger"⟩ rfl (by decide)

/-- `compute_duration` in the stateful interface of `runLoop`, with a fixed
abstract exponential sample. -/
def fixed_sample_dur (sample : Nat → Nat) : Unit → String → Except String (Nat × Unit) :=
  fun u a => (compute_duration sample a).map (fun d => (d, u))

/-- **C5.** After an actor's END SHIFT event has been yielded the generator
is exhausted: every further `send` returns the distinguished `none`
(`StopIteration`), never an event — and the main loop consumes that signal by
deleting the actor from the live registry (`del self.procs[proc_id]`) and
continuing, not by raising an error. -/
theorem exhaustion_consumed {σ : Type} (dur : σ → String → Except String (Nat × σ))
    (endTime : Nat) :
    (∀ (g : TaxiGen) (t : Nat), g.susp = .atEnd → taxi_send g t = none) ∧
    (∀ (f : Nat) (s : σ) (simTime : Nat) (st : SimState) (acc : List Event)
       (e : Event) (rest : List Event) (g : TaxiGen) (d : Nat) (s' : σ),
       simTime < endTime →
       events_get st.events = some (e, rest) →
       lookupProc st.procs e.proc = some g →
       dur s e.action = .ok (d, s') →
       taxi_send g (e.time + d) = none →
       runLoop dur endTime (f + 1) s simTime st acc =
         runLoop dur endTime f s' e.time ⟨rest, eraseKey st.procs e.proc⟩ (acc ++ [e])) := by
  constructor
  · intro g t h
    obtain ⟨id, n, s0, susp⟩ := g
    cases susp <;> simp_all [taxi_send]
  · intro f s simTime st acc e rest g d s' hlt hget hlook hdur hsend
    simp only [runLoop, hlt, if_true, hget, hlook, hdur, hsend]

/-- Witness for C5: a registry whose single actor is suspended at its END
SHIFT yield; resuming it raises `StopIteration` and the loop step deletes it
from the registry and recurses normally. -/
theorem exhaustion_consumed_witness :
    runLoop stub_dur 1000 1 () 55
        ⟨[⟨55, 0, "END SHIFT"⟩], [(0, ⟨0, 2, 0, .atEnd⟩)]⟩ [] =
      runLoop stub_dur 1000 0 () 55
        ⟨[], eraseKey [(0, ⟨0, 2, 0, .atEnd⟩)] 0⟩ [⟨55, 0, "END SHIFT"⟩] :=
  (exhaustion_consumed stub_dur 1000).2 0 () 55
    ⟨[⟨55, 0, "END SHIFT"⟩], [(0, ⟨0, 2, 0, .atEnd⟩)]⟩ [] ⟨55, 0, "END SHIFT"⟩ []
    ⟨0, 2, 0, .atEnd⟩ 1 () (by decide) rfl rfl rfl rfl

/-- **C6.** An action tag outside the four known ones makes
`compute_duration` raise (`ValueError`), and when the duration call in the
main loop raises, the run aborts at that very event: the dispatched sequence
ends with it and the error is propagated as the outcome, never swallowed or
replaced by a default delay. -/
theorem unknown_action_fatal {σ : Type} (dur : σ → String → Except String (Nat × σ))
    (endTime : Nat) :
    (∀ (sample : Nat → Nat) (a : String),
       a ≠ "START SHIFT" → a ≠ "drop off passenger" →
       a ≠ "pick up passenger" → a ≠ "END SHIFT" →
       compute_duration sample a = .error ("Unknown previous action: " ++ a)) ∧
    (∀ (f : Nat) (s : σ) (simTime : Nat) (st : SimState) (acc : List Event)
       (e : Event) (rest : List Event) (g : TaxiGen) (msg : String),
       simTime < endTime →
       events_get st.events = some (e, rest) →
       lookupProc st.procs e.proc = some g →
       dur s e.action = .error msg →
       runLoop dur endTime (f + 1) s simTime st acc = ⟨acc ++ [e], .valueError msg⟩) := by
  constructor
  · intro sample a h1 h2 h3 h4
    simp [compute_duration, h1, h2, h3, h4]
  · intro f s simTime st acc e rest g msg hlt hget hlook hdur
    simp only [runLoop, hlt, if_true, hget, hlook, hdur]

/-- Witness for C6: an event carrying the unknown tag "proto" is popped; the
duration function raises and the loop returns immediately with the
`ValueError` outcome, having dispatched only that event. -/
theorem unknown_action_fatal_witness :
    compute_duration (fun _ => 0) "proto"
        = .error ("Unknown previous action: " ++ "proto") ∧
    runLoop (fixed_sample_dur (fun _ => 0)) 10 1 () 0
        ⟨[⟨0, 0, "proto"⟩], [(0, ⟨0, 1, 0, .atStart⟩)]⟩ [] =
      ⟨[⟨0, 0, "proto"⟩], .valueError "Unknown previous action: proto"⟩ :=
  ⟨(unknown_action_fatal (fixed_sample_dur (fun _ => 0)) 10).1 (fun _ => 0) "proto"
      (by decide) (by decide) (by decide) (by decide),
   (unknown_action_fatal (fixed_sample_dur (fun _ => 0)) 10).2 0 () 0
      ⟨[⟨0, 0, "proto"⟩], [(0, ⟨0, 1, 0, .atStart⟩)]⟩ [] ⟨0, 0, "proto"⟩ []
      ⟨0, 1, 0, .atStart⟩ "Unknown previous action: proto"
      (by decide) rfl rfl rfl⟩

lemma lookup_setKey_self (l : List (Nat × TaxiGen)) (k : Nat) (g g' : TaxiGen)
    (h : lookupProc l k = some g) : lookupProc (setKey l k g') k = some g' := by
  induction l with
  | nil => simp [lookupProc] at h
  | cons p rest ih =>
      obtain ⟨k1, g1⟩ := p
      by_cases hk : k1 = k
      · simp [lookupProc, setKey, hk]
      · simp [lookupProc, setKey, hk] at h ⊢
        exact ih h

lemma lookup_setKey_other (l : List (Nat × TaxiGen)) (k j : Nat) (g' : TaxiGen)
    (h : j ≠ k) : lookupProc (setKey l k g') j = lookupProc l j := by
  induction l with
  | nil => simp [setKey, lookupProc]
  | cons p rest ih =>
      obtain ⟨k1, g1⟩ := p
      by_cases hk : k1 = k
      · subst hk
        simp [setKey, lookupProc, Ne.symm h]
      · by_cases hj : k1 = j <;> simp [setKey, lookupProc, hk, hj, ih, h]

lemma lookup_eraseKey_other (l : List (Nat × TaxiGen)) (k j : Nat)
    (h : j ≠ k) : lookupProc (eraseKey l k) j = lookupProc l j := by
  induction l with
  | nil => simp [eraseKey]
  | cons p rest ih =>
      obtain ⟨k1, g1⟩ := p
      by_cases hk : k1 = k
      · subst hk
        simp [eraseKey, lookupProc, Ne.symm h]
      · by_cases hj : k1 = j <;> simp [eraseKey, lookupProc, hk, hj, ih, h]

lemma lookupProc_of_mem (l : List (Nat × TaxiGen)) (k : Nat) (g : TaxiGen)
    (hnd : (l.map Prod.fst).Nodup) (hmem : (k, g) ∈ l) :
    lookupProc l k = some g := by
  induction l with
  | nil => simp at hmem
  | cons p rest ih =>
      obtain ⟨k1, g1⟩ := p
      simp only [List.map_cons, List.nodup_cons] at hnd
      rcases List.mem_cons.mp hmem with heq | hmem'
      · obtain ⟨h1, h2⟩ := Prod.mk.injEq .. ▸ heq.symm
        simp [lookupProc, h1, h2]
      · have hk : k1 ≠ k := by
          intro hkk
          subst hkk
          exact hnd.1 (List.mem_map.mpr ⟨(k1, g), hmem', rfl⟩)
        simp [lookupProc, hk]
        exact ih hnd.2 hmem'

lemma insertByKey_perm (x : Nat × TaxiGen) (l : List (Nat × TaxiGen)) :
    (insertByKey x l).Perm (x :: l) := by
  induction l with
  | nil => exact List.Perm.refl _
  | cons y ys ih =>
      by_cases hle : x.1 ≤ y.1
      · simp [insertByKey, hle]
      · simp only [insertByKey, hle, if_false]
        exact (ih.cons y).trans (List.Perm.swap x y ys)

lemma sortByKey_perm (l : List (Nat × TaxiGen)) : (sortByKey l).Perm l := by
  induction l with
  | nil => exact List.Perm.refl _
  | cons x xs ih =>
      exact (insertByKey_perm x (sortByKey xs)).trans (ih.cons x)

/-- Priming a registry of freshly created generators yields one START SHIFT
event per entry and advances each generator to its first suspension. -/
lemma prime_created (l : List (Nat × TaxiGen))
    (h : ∀ p ∈ l, p.2.susp = .created) :
    prime l = (l.map (fun p => ⟨p.2.startTime, p.2.ident, "START SHIFT"⟩),
               l.map (fun p => (p.1, { p.2 with susp := .atStart }))) := by
  induction l with
  | nil => rfl
  | cons p rest ih =>
      obtain ⟨k, g⟩ := p
      have hg : g.susp = .created := h (k, g) (List.mem_cons_self _ _)
      have hrest := ih (fun q hq => h q (List.mem_cons_of_mem _ hq))
      obtain ⟨id0, n0, s0, susp0⟩ := g
      simp only at hg
      subst hg
      simp [prime, hrest, taxi_next]

/-- The safety invariant of the main loop: queued events carry pairwise
distinct actor ids, and each one's id is a key of the live registry, bound
to a generator with that identity. -/
def SimInv (st : SimState) : Prop :=
  (st.events.map Event.proc).Nodup ∧
  ∀ e ∈ st.events, ∃ g, lookupProc st.procs e.proc = some g ∧ g.ident = e.proc

/-- The invariant is preserved by every loop iteration, so the registry
lookup after a pop never fails. -/
lemma runLoop_no_keyError {σ : Type} (dur : σ → String → Except String (Nat × σ))
    (endTime : Nat) :
    ∀ (fuel : Nat) (s : σ) (simTime : Nat) (st : SimState) (acc : List Event),
      SimInv st →
      ∀ id, (runLoop dur endTime fuel s simTime st acc).outcome ≠ .keyError id := by
  intro fuel
  induction fuel with
  | zero =>
      intro s simTime st acc hinv id
      by_cases hlt : simTime < endTime
      · cases hget : events_get st.events with
        | none => simp [runLoop, hlt, hget]
        | some p => obtain ⟨e, rest⟩ := p; simp [runLoop, hlt, hget]
      · simp [runLoop, hlt]
  | succ f ih =>
      intro s simTime st acc hinv id
      by_cases hlt : simTime < endTime
      · cases hget : events_get st.events with
        | none => simp [runLoop, hlt, hget]
        | some p =>
            obtain ⟨e, rest⟩ := p
            have hperm := events_get_perm st.events e rest hget
            have heMem : e ∈ st.events := hperm.symm.subset (List.mem_cons_self e rest)
            obtain ⟨g, hlook, hident⟩ := hinv.2 e heMem
            have hndE : (st.events.map Event.proc).Nodup := hinv.1
            have hndER : ((e :: rest).map Event.proc).Nodup :=
              (hperm.map Event.proc).nodup hndE
            simp only [List.map_cons, List.nodup_cons] at hndER
            have heNotRest : e.proc ∉ rest.map Event.proc := hndER.1
            have hRestNe : ∀ x ∈ rest, x.proc ≠ e.proc := by
              intro x hx hxe
              exact heNotRest (hxe ▸ List.mem_map.mpr ⟨x, hx, rfl⟩)
            have hRestReg : ∀ x ∈ rest, ∃ gx,
                lookupProc st.procs x.proc = some gx ∧ gx.ident = x.proc := by
              intro x hx
              exact hinv.2 x (hperm.symm.subset (List.mem_cons_of_mem e hx))
            cases hdur : dur s e.action with
            | error msg => simp [runLoop, hlt, hget, hlook, hdur]
            | ok p2 =>
                obtain ⟨d, s2⟩ := p2
                cases hsend : taxi_send g (e.time + d) with
                | none =>
                    have hinv' : SimInv ⟨rest, eraseKey st.procs e.proc⟩ := by
                      constructor
                      · exact hndER.2
                      · intro x hx
                        obtain ⟨gx, hgx, hgxid⟩ := hRestReg x hx
                        exact ⟨gx, by
                          rw [lookup_eraseKey_other st.procs e.proc x.proc (hRestNe x hx)]
                          exact hgx, hgxid⟩
                    have := ih s2 e.time ⟨rest, eraseKey st.procs e.proc⟩ (acc ++ [e]) hinv' id
                    simpa [runLoop, hlt, hget, hlook, hdur, hsend] using this
                | some p3 =>
                    obtain ⟨e2, g2⟩ := p3
                    obtain ⟨_, he2proc, hg2id⟩ := taxi_send_shape g (e.time + d) e2 g2 hsend
                    have he2e : e2.proc = e.proc := by rw [he2proc, hident]
                    have hg2e : g2.ident = e.proc := by rw [hg2id, hident]
                    have hinv' : SimInv ⟨e2 :: rest, setKey st.procs e.proc g2⟩ := by
                      constructor
                      · simp only [List.map_cons, List.nodup_cons]
                        exact ⟨he2e ▸ heNotRest, hndER.2⟩
                      · intro x hx
                        rcases List.mem_cons.mp hx with hx | hx
                        · subst hx
                          refine ⟨g2, ?_, by rw [hg2e, he2e]⟩
                          rw [he2e]
                          exact lookup_setKey_self st.procs e.proc g g2 hlook
                        · obtain ⟨gx, hgx, hgxid⟩ := hRestReg x hx
                          refine ⟨gx, ?_, hgxid⟩
                          rw [lookup_setKey_other st.procs e.proc x.proc g2 (hRestNe x hx)]
                          exact hgx
                    have := ih s2 e.time ⟨e2 :: rest, setKey st.procs e.proc g2⟩
                      (acc ++ [e]) hinv' id
                    simpa [runLoop, hlt, hget, hlook, hdur, hsend] using this
      · simp [runLoop, hlt]

/-- **C9.** Starting from any registry of freshly created generators whose
key equals the generator's identity (exactly how `main` builds `procs_map`),
the id of every event popped by the main loop is a key of the live registry:
the lookup `self.procs[proc_id]` never raises `KeyError`, because an event
of an actor already removed from the registry is never in the queue. -/
theorem run_no_keyError {σ : Type} (dur : σ → String → Except String (Nat × σ))
    (s : σ) (procs_map : List (Nat × TaxiGen)) (endTime : Nat)
    (hkeys : (procs_map.map Prod.fst).Nodup)
    (hmk : ∀ p ∈ procs_map, p.2.ident = p.1 ∧ p.2.susp = .created) :
    ∀ id, (Simulator.run dur s procs_map endTime).outcome ≠ .keyError id := by
  intro id
  have hperm := sortByKey_perm procs_map
  have hkeys' : ((sortByKey procs_map).map Prod.fst).Nodup :=
    (hperm.map Prod.fst).symm.nodup hkeys
  have hmk' : ∀ p ∈ sortByKey procs_map, p.2.ident = p.1 ∧ p.2.susp = .created :=
    fun p hp => hmk p (hperm.subset hp)
  have hpr := prime_created (sortByKey procs_map) (fun p hp => (hmk' p hp).2)
  have hinv : SimInv ⟨(prime (sortByKey procs_map)).1, (prime (sortByKey procs_map)).2⟩ := by
    rw [hpr]
    constructor
    · simp only [List.map_map]
      have : ((sortByKey procs_map).map
          (Event.proc ∘ fun p => ⟨p.2.startTime, p.2.ident, "START SHIFT"⟩))
          = (sortByKey procs_map).map Prod.fst := by
        apply List.map_congr_left
        intro p hp
        simp [(hmk' p hp).1]
      rw [this]
      exact hkeys'
    · intro e he
      simp only [List.mem_map] at he
      obtain ⟨p, hp, hpe⟩ := he
      refine ⟨{ p.2 with susp := .atStart }, ?_, ?_⟩
      · have hkeq : e.proc = p.1 := by rw [← hpe]; simp [(hmk' p hp).1]
        rw [hkeq]
        apply lookupProc_of_mem
        · have : ((sortByKey procs_map).map
              (fun p => (p.1, { p.2 with susp := TaxiSusp.atStart }))).map Prod.fst
              = (sortByKey procs_map).map Prod.fst := by
            rw [List.map_map]
            apply List.map_congr_left
            intro q _
            rfl
          rw [this]
          exact hkeys'
        · exact List.mem_map.mpr ⟨p, hp, rfl⟩
      · rw [← hpe]
  exact runLoop_no_keyError dur endTime _ s 0
    ⟨(prime (sortByKey procs_map)).1, (prime (sortByKey procs_map)).2⟩ [] hinv id

/-- Witness for C9: a two-taxi configuration exactly as `main` builds it;
the run never fails with a `KeyError` outcome (shown here for id 0). -/
theorem run_no_keyError_witness :
    (Simulator.run stub_dur ()
      [(0, taxi_process 0 1 0), (1, taxi_process 1 1 5)] 100).outcome ≠ .keyError 0 :=
  run_no_keyError stub_dur () [(0, taxi_process 0 1 0), (1, taxi_process 1 1 5)] 100
    (by decide) (by decide) 0
